import Mathlib

/-!
Verification of the nbpy library (a client for the NBP currency exchange-rate
web API) against its natural-language specification.

The development shallowly embeds the two source files `nbpy/__init__.py`
(class `NBPClient`) and `nbpy/exchange_rate.py` (class `NBPExchangeRate`).
Supporting modules that the sources import but whose code is not available
(`nbpy/currencies.py`, `nbpy/errors.py`, `nbpy/utils.py`) are modelled from
the specification; each such definition is marked `Modelled from the spec`.

Conventions of the embedding:
* Python strings are `String`; `str.upper`, `str.lower` and string `<=`
  are re-implemented over the character list so that they evaluate inside
  the kernel (`strUpper`, `strLower`, `strLe`).  Python compares strings
  lexicographically by code point, which is what `strLe` does.
* Numeric rate values (parsed as `Decimal` or `float`) are `Rat`.
* Python dictionaries keyed by date are association lists preserving
  insertion order, as Python dicts do.
* Raised exceptions are `Except NBPError`.
* The HTTP transport (`requests.get` + `raise_for_status` + `.json()`)
  is an oracle `Net : String → Except String (List RateDict)` mapping a
  request URI to either a transport-failure description or the parsed
  `rates` array of the JSON body.
* Each network request made is counted; stateful functions return the
  number of transport calls performed so that "no network call is made"
  is a provable statement.
-/

namespace NBPy

/-- Lexicographic comparison of character lists by code point, the ordering
Python uses for strings. -/
def charListLe : List Char → List Char → Bool
  | [], _ => true
  | _ :: _, [] => false
  | a :: as, b :: bs =>
    if a.toNat < b.toNat then true
    else if b.toNat < a.toNat then false
    else charListLe as bs

/-- Python string comparison `a <= b` (by code point). -/
def strLe (a b : String) : Bool := charListLe a.data b.data

/-- Python `str.upper()` restricted to ASCII, which covers currency codes. -/
def strUpper (s : String) : String := String.mk (s.data.map Char.toUpper)

/-- Python `str.lower()` restricted to ASCII. -/
def strLower (s : String) : String := String.mk (s.data.map Char.toLower)

/-- Modelled from the spec: one record of the currency registry from
`nbpy/currencies.py` (absent from the sources): a display name together with
the set of upstream table identifiers carrying the currency.  The `tables`
field is visible in the sources as `currencies[code].tables`. -/
structure NBPCurrency where
  name : String
  tables : List String
deriving Repr, DecidableEq

/-- Modelled from the spec: the currency registry is a static mapping from
upper-case currency code to its record. -/
abbrev Registry := List (String × NBPCurrency)

/-- Registry lookup (`currencies[code]` / `code in currencies`). -/
def lookupCur (reg : Registry) (code : String) : Option NBPCurrency :=
  (reg.find? (fun kv => kv.1 == code)).map (fun kv => kv.2)

/-- Modelled from the spec: the error kinds of `nbpy/errors.py` (absent from
the sources), plus `typeError` standing for Python's own `TypeError` raised
when a required constructor argument is missing. -/
inductive NBPError where
  | unknownCurrencyCode (code : String)
  | invalidDate (date : String)
  | apiError (msg : String)
  | typeError
deriving Repr, DecidableEq

/-- Numeric value of a list of decimal digit characters. -/
def natOfDigits (l : List Char) : Nat :=
  l.foldl (fun n c => 10 * n + (c.toNat - 48)) 0

/-- Gregorian leap-year test. -/
def isLeapYear (y : Nat) : Bool :=
  (y % 4 == 0 && y % 100 != 0) || y % 400 == 0

/-- Number of days in a month. -/
def daysInMonth (y m : Nat) : Nat :=
  if m == 2 then (if isLeapYear y then 29 else 28)
  else if m == 4 || m == 6 || m == 9 || m == 11 then 30
  else 31

/-- Modelled from the spec: calendar well-formedness of a caller-supplied
date string, as checked by `validate_date` from `nbpy/utils.py` (absent from
the sources): the string has the shape `YYYY-MM-DD` and denotes an existing
calendar date. -/
def isValidDate (s : String) : Bool :=
  match s.data with
  | [y1, y2, y3, y4, c1, m1, m2, c2, d1, d2] =>
    y1.isDigit && y2.isDigit && y3.isDigit && y4.isDigit &&
    c1 == '-' && c2 == '-' &&
    m1.isDigit && m2.isDigit && d1.isDigit && d2.isDigit &&
    (let y := natOfDigits [y1, y2, y3, y4]
     let m := natOfDigits [m1, m2]
     let d := natOfDigits [d1, d2]
     1 ≤ m && m ≤ 12 && 1 ≤ d && d ≤ daysInMonth y m)
  | _ => false

/-- Modelled from the spec: `validate_date` from `nbpy/utils.py` raises
`InvalidDate` when the date string fails calendar validation. -/
def validate_date (s : String) : Except NBPError Unit :=
  if isValidDate s then .ok () else .error (.invalidDate s)

/-- The exchange-rate value object of `nbpy/exchange_rate.py`.  The `bidask`
field is `some` exactly when both `bid` and `ask` were passed to the
constructor (lines 20-22 of the source). -/
structure NBPExchangeRate where
  currency_code : String
  date : String
  source_id : String
  mid : Rat
  bidask : Option (Rat × Rat)
deriving Repr, DecidableEq

/-- The `currency_code` setter of `NBPExchangeRate` (exchange_rate.py lines
29-34): upper-case the code, raise `UnknownCurrencyCode` when it is absent
from the registry, store it otherwise. -/
def NBPExchangeRate.validateCode (reg : Registry) (code : String) :
    Except NBPError String :=
  let code := strUpper code
  if (lookupCur reg code).isSome then .ok code
  else .error (.unknownCurrencyCode code)

/-- The `NBPExchangeRate` constructor (exchange_rate.py lines 13-22): the
code is validated by the setter; `bid`/`ask` are stored only when both are
present among the keyword arguments. -/
def NBPExchangeRate.init (reg : Registry) (currency_code date source_id : String)
    (mid : Rat) (bid ask : Option Rat) : Except NBPError NBPExchangeRate :=
  match NBPExchangeRate.validateCode reg currency_code with
  | .error e => .error e
  | .ok code =>
    .ok { currency_code := code, date, source_id, mid,
          bidask :=
            match bid, ask with
            | some b, some a => some (b, a)
            | _, _ => none }

/-- The `currency_name` property (exchange_rate.py line 39): the source
returns `currencies[self.currency_code]`, i.e. the registry record itself
(the lookup cannot fail because the stored code was validated). -/
def NBPExchangeRate.currency_name (reg : Registry) (r : NBPExchangeRate) :
    Option NBPCurrency :=
  lookupCur reg r.currency_code

/-- The conversion operation `__call__` (exchange_rate.py lines 41-52):
with bid/ask present the returned dict has keys `bid`, `ask`, `mid`;
accessing a missing `bid` raises `AttributeError`, caught to return the
`mid`-only dict. -/
def NBPExchangeRate.call (r : NBPExchangeRate) (amount_in_pln : Rat) :
    List (String × Rat) :=
  match r.bidask with
  | some (b, a) =>
    [("bid", b * amount_in_pln), ("ask", a * amount_in_pln),
     ("mid", r.mid * amount_in_pln)]
  | none => [("mid", r.mid * amount_in_pln)]

/-- Left multiplication `__mul__` (exchange_rate.py lines 54-56): delegates
to `__call__`. -/
def NBPExchangeRate.mul (r : NBPExchangeRate) (amount_in_pln : Rat) :
    List (String × Rat) :=
  r.call amount_in_pln

/-- Right multiplication `__rmul__` (exchange_rate.py lines 58-60):
delegates to `__call__`. -/
def NBPExchangeRate.rmul (r : NBPExchangeRate) (amount_in_pln : Rat) :
    List (String × Rat) :=
  r.call amount_in_pln

/-- One parsed entry of the upstream JSON `rates` array.  `effectiveDate`
and the source identifier are always present; `mid` is present in the
average-rate table, `bid`/`ask` in the spread table. -/
structure RateDict where
  effectiveDate : String
  source_id : String
  mid : Option Rat
  bid : Option Rat
  ask : Option Rat
deriving Repr, DecidableEq

/-- Python `dict.update` on two rate entries (line 106 of `__init__.py`):
every key present in `new` overwrites the one in `old`; keys absent from
`new` keep their old values. -/
def RateDict.update (old new : RateDict) : RateDict :=
  { effectiveDate := new.effectiveDate,
    source_id := new.source_id,
    mid := match new.mid with | some m => some m | none => old.mid,
    bid := match new.bid with | some b => some b | none => old.bid,
    ask := match new.ask with | some a => some a | none => old.ask }

/-- Write into a date-keyed Python dict, modelled as an insertion-ordered
association list: when the key is present the stored value is modified with
`g` in place; otherwise the pair is appended. -/
def dictWrite (g : RateDict → RateDict → RateDict)
    (acc : List (String × RateDict)) (k : String) (v : RateDict) :
    List (String × RateDict) :=
  if acc.any (fun e => e.1 == k) then
    acc.map (fun e => if e.1 == k then (e.1, g e.2 v) else e)
  else acc ++ [(k, v)]

/-- The dict comprehension of line 103 of `__init__.py`:
`{rate[effectiveDate]: rate for rate in data}`; a repeated date replaces the
stored value wholesale. -/
def keyByDate (data : List RateDict) : List (String × RateDict) :=
  data.foldl (fun acc r => dictWrite (fun _ new => new) acc r.effectiveDate r) []

/-- The merge loop of lines 104-108 of `__init__.py`: for each date of the
freshly fetched table, update the entry already present in `rates` or add a
new one. -/
def mergeData (rates newData : List (String × RateDict)) :
    List (String × RateDict) :=
  newData.foldl (fun acc kv => dictWrite RateDict.update acc kv.1 kv.2) rates

/-- Transport oracle standing for `requests.get` + `raise_for_status` +
JSON parsing of the `rates` field: maps a request URI to a transport-failure
description or the parsed rates array. -/
abbrev Net := String → Except String (List RateDict)

/-- Base URI of the NBP API (`__init__.py` line 17). -/
def BASE_URI : String := "http://api.nbp.pl/api"

/-- The URI template instantiation of lines 79-83 of `__init__.py`: table,
code and tail are lower-cased. -/
def mkUri (table code tail : String) : String :=
  BASE_URI ++ "/exchangerates/rates/" ++ strLower table ++ "/" ++
    strLower code ++ "/" ++ strLower tail

/-- The per-table fetch-and-merge loop of `_get_response_data` (lines
78-108): one GET per table; on transport failure return `None` when errors
are suppressed and raise `APIError` otherwise, in both cases discarding the
tables already merged; on success key the response by date and merge it in.
The second component counts the transport calls made. -/
def fetchTables (net : Net) (suppress : Bool) (code tail : String) :
    List String → List (String × RateDict) →
    Except NBPError (Option (List (String × RateDict))) × Nat
  | [], rates => (.ok (some rates), 0)
  | table :: ts, rates =>
    match net (mkUri table code tail) with
    | .error e => (if suppress then .ok none else .error (.apiError e), 1)
    | .ok data =>
      let r := fetchTables net suppress code tail ts (mergeData rates (keyByDate data))
      (r.1, r.2 + 1)

/-- Evaluation of a sequence of fallible computations, left to right,
stopping at the first raised exception (the semantics of a Python list
comprehension whose element expression may raise). -/
def mapExcept {α β ε : Type} (f : α → Except ε β) : List α → Except ε (List β)
  | [] => .ok []
  | x :: xs =>
    match f x with
    | .error e => .error e
    | .ok y =>
      match mapExcept f xs with
      | .error e => .error e
      | .ok ys => .ok (y :: ys)

/-- Construction of one `NBPExchangeRate` from a merged rate entry (lines
111-115 of `__init__.py`): `date` is the entry's `effectiveDate` and the
remaining keys are passed as keyword arguments, so a missing `mid` would be
a `TypeError`. -/
def NBPExchangeRate.fromRate (reg : Registry) (code : String) (r : RateDict) :
    Except NBPError NBPExchangeRate :=
  match r.mid with
  | some m => NBPExchangeRate.init reg code r.effectiveDate r.source_id m r.bid r.ask
  | none => .error .typeError

/-- Date order on exchange-rate records used as the sort key (line 116). -/
def dateLe (a b : NBPExchangeRate) : Prop := strLe a.date b.date = true

instance : DecidableRel dateLe := fun a b => instDecidableEqBool (strLe a.date b.date) true

/-- Python `sorted(..., key=lambda rate: rate.date)` (line 116), embedded as
a stable sort by date. -/
def sortByDate (l : List NBPExchangeRate) : List NBPExchangeRate :=
  l.insertionSort dateLe

/-- The comprehension-and-sort of lines 110-116 of `__init__.py`: keep the
merged entries that carry a `mid` value, construct an exchange-rate record
from each, and sort ascending by date. -/
def finalize (reg : Registry) (code : String)
    (rates : List (String × RateDict)) : Except NBPError (List NBPExchangeRate) :=
  match mapExcept (NBPExchangeRate.fromRate reg code)
      ((rates.map (fun kv => kv.2)).filter (fun r => r.mid.isSome)) with
  | .ok l => .ok (sortByDate l)
  | .error e => .error e

/-- Key of the memoizing cache wrapped around `_get_response_data` (line
42): the positional arguments `uri_tail` and `all_values` of the bound
method; the currency code is not part of the key. -/
abbrev CacheKey := String × Bool

/-- Cached value: the return value of `_get_response_data`, which is `None`
when a transport failure was suppressed. -/
abbrev CacheVal := Option (List NBPExchangeRate)

/-- The bounded least-recently-used cache of `functools.lru_cache` (line
41), most recent entry first. -/
structure LRUCache where
  maxsize : Nat
  entries : List (CacheKey × CacheVal)
deriving Repr, DecidableEq

/-- Cache lookup: on a hit the entry moves to the most-recent position. -/
def LRUCache.get (c : LRUCache) (k : CacheKey) :
    Option (CacheVal × LRUCache) :=
  match c.entries.find? (fun kv => kv.1 == k) with
  | some kv =>
    some (kv.2, { c with entries := kv :: c.entries.filter (fun e => !(e.1 == k)) })
  | none => none

/-- Cache insertion: the new entry becomes most recent and entries beyond
`maxsize` are evicted. -/
def LRUCache.put (c : LRUCache) (k : CacheKey) (v : CacheVal) : LRUCache :=
  { c with entries := ((k, v) :: c.entries.filter (fun e => !(e.1 == k))).take c.maxsize }

/-- The client of `nbpy/__init__.py`. -/
structure NBPClient where
  currency_code : String
  as_float : Bool
  suppress_api_errors : Bool
  cache : LRUCache
deriving Repr, DecidableEq

/-- The `currency_code` setter of `NBPClient` (lines 57-62 of
`__init__.py`): same rule as the rate object's setter, duplicated in the
source. -/
def NBPClient.validateCode (reg : Registry) (code : String) :
    Except NBPError String :=
  let code := strUpper code
  if (lookupCur reg code).isSome then .ok code
  else .error (.unknownCurrencyCode code)

/-- The `NBPClient` constructor (lines 26-42): validates the code via the
setter, records the flags, and wraps the fetch step in an LRU cache of size
`cache_size` (default 128). -/
def NBPClient.init (reg : Registry) (currency_code : String)
    (as_float suppress_api_errors : Bool) (cache_size : Nat) :
    Except NBPError NBPClient :=
  match NBPClient.validateCode reg currency_code with
  | .error e => .error e
  | .ok code =>
    .ok { currency_code := code, as_float, suppress_api_errors,
          cache := { maxsize := cache_size, entries := [] } }

/-- Reassignment of `client.currency_code` (runs the setter again; the
cache is untouched). -/
def NBPClient.setCurrencyCode (reg : Registry) (c : NBPClient) (code : String) :
    Except NBPError NBPClient :=
  match NBPClient.validateCode reg code with
  | .error e => .error e
  | .ok code => .ok { c with currency_code := code }

/-- Resolution of the upstream tables for a query (lines 71-74): the
registry's table set for the currency, with the spread table C discarded
unless `all_values` is set.  `eraseDups` realizes that the source holds the
tables in a Python set. -/
def tablesFor (reg : Registry) (code : String) (all_values : Bool) :
    List String :=
  let ts := (((lookupCur reg code).map (fun cur => cur.tables)).getD []).eraseDups
  if all_values then ts else ts.filter (fun t => !(t == "C"))

/-- The body of `_get_response_data` (lines 69-116), before memoization:
fetch and merge every relevant table, then build the sorted record list;
`none` is the suppressed-failure result.  The second component counts the
transport calls made. -/
def get_response_data_uncached (reg : Registry) (net : Net) (c : NBPClient)
    (uri_tail : String) (all_values : Bool) :
    Except NBPError CacheVal × Nat :=
  let r := fetchTables net c.suppress_api_errors c.currency_code uri_tail
    (tablesFor reg c.currency_code all_values) []
  match r.1 with
  | .ok (some m) =>
    (match finalize reg c.currency_code m with
     | .ok l => .ok (some l)
     | .error e => .error e, r.2)
  | .ok none => (.ok none, r.2)
  | .error e => (.error e, r.2)

/-- The memoized `_get_response_data` (wrapped by `lru_cache` at lines
41-42): a cache hit returns the stored value with no transport call; a miss
runs the body and stores the returned value — also a suppressed-failure
`None`, but never a raised exception. -/
def NBPClient.get_response_data (reg : Registry) (net : Net) (c : NBPClient)
    (uri_tail : String) (all_values : Bool) :
    Except NBPError CacheVal × NBPClient × Nat :=
  match c.cache.get (uri_tail, all_values) with
  | some (v, cache) => (.ok v, { c with cache }, 0)
  | none =>
    match get_response_data_uncached reg net c uri_tail all_values with
    | (.ok v, n) => (.ok v, { c with cache := c.cache.put (uri_tail, all_values) v }, n)
    | (.error e, n) => (.error e, c, n)

/-- Modelled from the spec: the `first_if_sequence` decorator from
`nbpy/utils.py` (absent from the sources): single-date queries return the
first record of the fetched sequence. -/
def first_if_sequence (v : CacheVal) : Option NBPExchangeRate :=
  v.bind List.head?

/-- The `date` query method (lines 130-134 of `__init__.py`): validates the
date, then fetches; single record via `first_if_sequence`. -/
def NBPClient.date (reg : Registry) (net : Net) (c : NBPClient)
    (date : String) (all_values : Bool) :
    Except NBPError (Option NBPExchangeRate) × NBPClient × Nat :=
  match validate_date date with
  | .error e => (.error e, c, 0)
  | .ok _ =>
    let r := c.get_response_data reg net date all_values
    (r.1.map first_if_sequence, r.2.1, r.2.2)

/-- The `date_range` query method (lines 136-141 of `__init__.py`):
validates both dates, then fetches with tail `start/end`. -/
def NBPClient.date_range (reg : Registry) (net : Net) (c : NBPClient)
    (start_date end_date : String) (all_values : Bool) :
    Except NBPError CacheVal × NBPClient × Nat :=
  match validate_date start_date with
  | .error e => (.error e, c, 0)
  | .ok _ =>
    match validate_date end_date with
    | .error e => (.error e, c, 0)
    | .ok _ =>
      c.get_response_data reg net (start_date ++ "/" ++ end_date) all_values

/-- The `last` query method (lines 126-128 of `__init__.py`). -/
def NBPClient.last (reg : Registry) (net : Net) (c : NBPClient) (n : Nat)
    (all_values : Bool) :
    Except NBPError CacheVal × NBPClient × Nat :=
  c.get_response_data reg net ("last/" ++ toString n) all_values

/-- Modelled from the spec: a sample of the registry data of
`nbpy/currencies.py` (absent from the sources), used to instantiate
witnesses: USD is carried by the average table A and the bid/ask table C. -/
def nbpCurrencies : Registry :=
  [("USD", { name := "United States dollar", tables := ["A", "C"] }),
   ("EUR", { name := "euro", tables := ["A", "C"] }),
   ("CUP", { name := "Cuban peso", tables := ["B"] })]

/-- A freshly constructed USD client with the default configuration. -/
def usdClient : NBPClient :=
  { currency_code := "USD", as_float := false, suppress_api_errors := false,
    cache := { maxsize := 128, entries := [] } }

/-- A freshly constructed USD client with `suppress_api_errors` set. -/
def usdClientSup : NBPClient :=
  { usdClient with suppress_api_errors := true }

/-- Sample average-table entry for 2023-01-02. -/
def rdA1 : RateDict :=
  { effectiveDate := "2023-01-02", source_id := "1/A/NBP/2023",
    mid := some 4, bid := none, ask := none }

/-- Sample average-table entry for 2023-01-03. -/
def rdA2 : RateDict :=
  { effectiveDate := "2023-01-03", source_id := "2/A/NBP/2023",
    mid := some 5, bid := none, ask := none }

/-- Sample spread-table entry for 2023-01-02 (no `mid`). -/
def rdC1 : RateDict :=
  { effectiveDate := "2023-01-02", source_id := "1/C/NBP/2023",
    mid := none, bid := some 3, ask := some 6 }

/-- The query path tail used by the sample queries. -/
def tailW : String := "2023-01-02/2023-01-05"

/-- Transport oracle answering the average-table USD query with two
records (out of date order) and failing on every other URI. -/
def netA : Net := fun uri =>
  if uri == mkUri "A" "USD" tailW then .ok [rdA2, rdA1]
  else .error "404 Client Error"

/-- Transport oracle failing on every URI. -/
def netDown : Net := fun _ => .error "503 Server Error"

/-- Transport oracle answering the average-table USD query and failing on
the spread table (and everything else). -/
def netACfail : Net := fun uri =>
  if uri == mkUri "A" "USD" tailW then .ok [rdA1]
  else .error "404 Client Error"

/-- The exchange-rate record built from `rdA1`. -/
def usdRate1 : NBPExchangeRate :=
  ⟨"USD", "2023-01-02", "1/A/NBP/2023", 4, none⟩

/-- The exchange-rate record built from `rdA2`. -/
def usdRate2 : NBPExchangeRate :=
  ⟨"USD", "2023-01-03", "2/A/NBP/2023", 5, none⟩

/-- A sample record with bid/ask data present. -/
def usdRateBidAsk : NBPExchangeRate :=
  ⟨"USD", "2023-01-02", "1/C/NBP/2023", 4, some (3, 6)⟩

/-- The code-point order on character lists is total. -/
theorem charListLe_total : ∀ as bs, charListLe as bs = true ∨ charListLe bs as = true
  | [], _ => Or.inl rfl
  | _ :: _, [] => Or.inr rfl
  | a :: as, b :: bs => by
    rcases Nat.lt_trichotomy a.toNat b.toNat with h | h | h
    · left; simp [charListLe, h]
    · have h1 : ¬ a.toNat < b.toNat := by omega
      have h2 : ¬ b.toNat < a.toNat := by omega
      simpa [charListLe, h1, h2] using charListLe_total as bs
    · right; simp [charListLe, h]

/-- The code-point order on character lists is transitive. -/
theorem charListLe_trans : ∀ as bs cs, charListLe as bs = true →
    charListLe bs cs = true → charListLe as cs = true
  | [], _, _ => fun _ _ => rfl
  | _ :: _, [], _ => fun h _ => by simp [charListLe] at h
  | _ :: _, _ :: _, [] => fun _ h => by simp [charListLe] at h
  | a :: as, b :: bs, c :: cs => by
    intro h1 h2
    rcases Nat.lt_trichotomy a.toNat b.toNat with hab | hab | hab
    · rcases Nat.lt_trichotomy b.toNat c.toNat with hbc | hbc | hbc
      · simp [charListLe, show a.toNat < c.toNat by omega]
      · simp [charListLe, show a.toNat < c.toNat by omega]
      · exfalso
        simp [charListLe, show ¬ b.toNat < c.toNat by omega, hbc] at h2
    · have h1' : charListLe as bs = true := by
        simpa [charListLe, show ¬ a.toNat < b.toNat by omega,
          show ¬ b.toNat < a.toNat by omega] using h1
      rcases Nat.lt_trichotomy b.toNat c.toNat with hbc | hbc | hbc
      · simp [charListLe, show a.toNat < c.toNat by omega]
      · have h2' : charListLe bs cs = true := by
          simpa [charListLe, show ¬ b.toNat < c.toNat by omega,
            show ¬ c.toNat < b.toNat by omega] using h2
        simpa [charListLe, show ¬ a.toNat < c.toNat by omega,
          show ¬ c.toNat < a.toNat by omega] using
          charListLe_trans as bs cs h1' h2'
      · exfalso
        simp [charListLe, show ¬ b.toNat < c.toNat by omega, hbc] at h2
    · exfalso
      simp [charListLe, show ¬ a.toNat < b.toNat by omega, hab] at h1

/-- Python string comparison is total. -/
theorem strLe_total (a b : String) : strLe a b = true ∨ strLe b a = true :=
  charListLe_total a.data b.data

/-- Python string comparison is transitive. -/
theorem strLe_trans {a b c : String} (h1 : strLe a b = true)
    (h2 : strLe b c = true) : strLe a c = true :=
  charListLe_trans a.data b.data c.data h1 h2

instance : IsTotal NBPExchangeRate dateLe :=
  ⟨fun a b => strLe_total a.date b.date⟩

instance : IsTrans NBPExchangeRate dateLe :=
  ⟨fun _ _ _ h1 h2 => strLe_trans h1 h2⟩

/-- The sort of line 116 produces a list ordered ascending by date. -/
theorem sortByDate_sorted (l : List NBPExchangeRate) :
    (sortByDate l).Pairwise dateLe :=
  List.sorted_insertionSort dateLe l

/-- The sort of line 116 permutes its input. -/
theorem sortByDate_perm (l : List NBPExchangeRate) :
    (sortByDate l).Perm l :=
  List.perm_insertionSort dateLe l

/-- Invariant of the date-keyed dictionaries built by the merge loop: the
keys are pairwise distinct and every stored entry records its own key as
`effectiveDate`. -/
def GoodRates (m : List (String × RateDict)) : Prop :=
  (m.map Prod.fst).Nodup ∧ ∀ kv ∈ m, kv.2.effectiveDate = kv.1

/-- A dict write preserves the invariant whenever the modification function
keeps the incoming entry's date. -/
theorem dictWrite_good {g : RateDict → RateDict → RateDict}
    {acc : List (String × RateDict)} {k : String} {v : RateDict}
    (hg : ∀ old new, (g old new).effectiveDate = new.effectiveDate)
    (h : GoodRates acc) (hv : v.effectiveDate = k) :
    GoodRates (dictWrite g acc k v) := by
  unfold dictWrite
  by_cases hmem : acc.any (fun e => e.1 == k) = true
  · rw [if_pos hmem]
    constructor
    · rw [List.map_map]
      have hfst : List.map
          (Prod.fst ∘ fun e => if e.1 == k then (e.1, g e.2 v) else e) acc =
          List.map Prod.fst acc := by
        refine List.map_congr_left ?_
        intro e _
        by_cases h' : e.1 == k <;> simp [Function.comp, h']
      rw [hfst]
      exact h.1
    · intro kv hkv
      rcases List.mem_map.mp hkv with ⟨e, he, hkve⟩
      by_cases h' : e.1 == k
      · rw [if_pos h'] at hkve
        subst hkve
        simp only [hg]
        rw [hv]
        exact (eq_of_beq h').symm
      · rw [if_neg h'] at hkve
        subst hkve
        exact h.2 e he
  · rw [if_neg hmem]
    constructor
    · rw [List.map_append]
      refine h.1.append (List.nodup_singleton k) ?_
      intro a ha hb
      rcases List.mem_map.mp ha with ⟨e, he, hea⟩
      rcases List.mem_singleton.mp hb with rfl
      exact hmem (List.any_eq_true.mpr ⟨e, he, by simp [hea]⟩)
    · intro kv hkv
      rcases List.mem_append.mp hkv with hkv | hkv
      · exact h.2 kv hkv
      · rcases List.mem_singleton.mp hkv with rfl
        exact hv

/-- Folding the dict-comprehension step preserves the invariant. -/
theorem keyByDate_foldl_good (data : List RateDict) :
    ∀ acc, GoodRates acc →
    GoodRates (data.foldl
      (fun acc r => dictWrite (fun _ new => new) acc r.effectiveDate r) acc) := by
  induction data with
  | nil => intro acc h; exact h
  | cons r rest ih =>
    intro acc h
    exact ih _ (dictWrite_good (fun _ _ => rfl) h rfl)

/-- The dict comprehension of line 103 builds a dictionary satisfying the
invariant. -/
theorem keyByDate_good (data : List RateDict) : GoodRates (keyByDate data) :=
  keyByDate_foldl_good data [] ⟨List.nodup_nil, by intro kv h; cases h⟩

/-- The merge loop of lines 104-108 preserves the invariant. -/
theorem mergeData_good {newData : List (String × RateDict)}
    (hnew : ∀ kv ∈ newData, kv.2.effectiveDate = kv.1) :
    ∀ rates, GoodRates rates → GoodRates (mergeData rates newData) := by
  induction newData with
  | nil => intro rates h; exact h
  | cons kv rest ih =>
    intro rates h
    exact ih (fun e he => hnew e (List.mem_cons_of_mem kv he)) _
      (dictWrite_good (fun _ _ => rfl) h (hnew kv (List.mem_cons_self kv rest)))

/-- A successful run of the fetch loop yields a dictionary satisfying the
invariant. -/
theorem fetchTables_ok_good {net : Net} {sup : Bool} {code tail : String} :
    ∀ (ts : List String) (rates : List (String × RateDict))
    (m : List (String × RateDict)), GoodRates rates →
    (fetchTables net sup code tail ts rates).1 = .ok (some m) → GoodRates m := by
  intro ts
  induction ts with
  | nil =>
    intro rates m h hm
    cases hm
    exact h
  | cons t ts ih =>
    intro rates m h hm
    unfold fetchTables at hm
    cases hnet : net (mkUri t code tail) with
    | error e =>
      rw [hnet] at hm
      cases sup <;> simp at hm
    | ok data =>
      rw [hnet] at hm
      exact ih _ m (mergeData_good (keyByDate_good data).2 rates h) hm

/-- A successful run of the fetch loop makes exactly one transport call per
table. -/
theorem fetchTables_ok_count {net : Net} {sup : Bool} {code tail : String} :
    ∀ (ts : List String) (rates m : List (String × RateDict)),
    (fetchTables net sup code tail ts rates).1 = .ok (some m) →
    (fetchTables net sup code tail ts rates).2 = ts.length := by
  intro ts
  induction ts with
  | nil => intro rates m _; rfl
  | cons t ts ih =>
    intro rates m hm
    unfold fetchTables at hm ⊢
    cases hnet : net (mkUri t code tail) with
    | error e =>
      rw [hnet] at hm
      cases sup <;> simp at hm
    | ok data =>
      rw [hnet] at hm
      have hm' : (fetchTables net sup code tail ts
          (mergeData rates (keyByDate data))).1 = .ok (some m) := hm
      show (fetchTables net sup code tail ts
        (mergeData rates (keyByDate data))).2 + 1 = ts.length + 1
      rw [ih _ m hm']

/-- When the transport fails on a table after every earlier table fetched
successfully, the fetch loop discards everything fetched so far and ends
the query: a suppressed `None`, or a raised `APIError` carrying the
transport description.  Exactly one call is made per table reached. -/
theorem fetchTables_fail {net : Net} {sup : Bool} {code tail t : String}
    {ts2 : List String} {e : String}
    (hfail : net (mkUri t code tail) = .error e) :
    ∀ (ts1 : List String) (rates : List (String × RateDict)),
    (∀ t' ∈ ts1, ∃ d, net (mkUri t' code tail) = .ok d) →
    fetchTables net sup code tail (ts1 ++ t :: ts2) rates =
      (if sup then .ok none else .error (.apiError e), ts1.length + 1) := by
  intro ts1
  induction ts1 with
  | nil =>
    intro rates _
    simp only [List.nil_append, fetchTables]
    rw [hfail]
    rfl
  | cons t' ts1 ih =>
    intro rates hok
    obtain ⟨d, hd⟩ := hok t' (List.mem_cons_self t' ts1)
    have hrest : ∀ u ∈ ts1, ∃ d, net (mkUri u code tail) = .ok d :=
      fun u hu => hok u (List.mem_cons_of_mem t' hu)
    simp only [List.cons_append, fetchTables]
    rw [hd]
    simp only [List.append_eq]
    rw [ih _ hrest]
    simp [List.length_cons]

/-- Every element of a successful `mapExcept` run comes from a successful
application of `f` to an input element. -/
theorem mapExcept_mem {α β ε : Type} {f : α → Except ε β} :
    ∀ {xs : List α} {l : List β}, mapExcept f xs = .ok l →
    ∀ y ∈ l, ∃ x ∈ xs, f x = .ok y := by
  intro xs
  induction xs with
  | nil =>
    intro l h y hy
    cases h
    cases hy
  | cons x xs ih =>
    intro l h y hy
    unfold mapExcept at h
    cases hfx : f x with
    | error e => rw [hfx] at h; cases h
    | ok z =>
      rw [hfx] at h
      cases hrest : mapExcept f xs with
      | error e => rw [hrest] at h; cases h
      | ok zs =>
        rw [hrest] at h
        cases h
        rcases List.mem_cons.mp hy with rfl | hy
        · exact ⟨x, List.mem_cons_self x xs, hfx⟩
        · rcases ih hrest y hy with ⟨x', hx', hfx'⟩
          exact ⟨x', List.mem_cons_of_mem x hx', hfx'⟩

/-- Every input element of a successful `mapExcept` run is mapped to some
element of the output. -/
theorem mapExcept_mem_rev {α β ε : Type} {f : α → Except ε β} :
    ∀ {xs : List α} {l : List β}, mapExcept f xs = .ok l →
    ∀ x ∈ xs, ∃ y ∈ l, f x = .ok y := by
  intro xs
  induction xs with
  | nil =>
    intro l _ x hx
    cases hx
  | cons x xs ih =>
    intro l h x' hx'
    unfold mapExcept at h
    cases hfx : f x with
    | error e => rw [hfx] at h; cases h
    | ok z =>
      rw [hfx] at h
      cases hrest : mapExcept f xs with
      | error e => rw [hrest] at h; cases h
      | ok zs =>
        rw [hrest] at h
        cases h
        rcases List.mem_cons.mp hx' with rfl | hx'
        · exact ⟨z, List.mem_cons_self z zs, hfx⟩
        · rcases ih hrest x' hx' with ⟨y, hy, hfy⟩
          exact ⟨y, List.mem_cons_of_mem z hy, hfy⟩

/-- A successful `mapExcept` run maps projections of the outputs to
projections of the inputs, pointwise. -/
theorem mapExcept_map {α β ε γ : Type} {f : α → Except ε β}
    {g1 : β → γ} {g2 : α → γ}
    (hf : ∀ x y, f x = .ok y → g1 y = g2 x) :
    ∀ {xs : List α} {l : List β}, mapExcept f xs = .ok l →
    l.map g1 = xs.map g2 := by
  intro xs
  induction xs with
  | nil =>
    intro l h
    cases h
    rfl
  | cons x xs ih =>
    intro l h
    unfold mapExcept at h
    cases hfx : f x with
    | error e => rw [hfx] at h; cases h
    | ok z =>
      rw [hfx] at h
      cases hrest : mapExcept f xs with
      | error e => rw [hrest] at h; cases h
      | ok zs =>
        rw [hrest] at h
        cases h
        simp only [List.map_cons]
        rw [hf x z hfx, ih hrest]

/-- Inversion of the record construction: a successfully built record keeps
the entry's date as `date`, its `mid` value as `mid`, and stores the
upper-cased currency code. -/
theorem fromRate_ok {reg : Registry} {code : String} {r : RateDict}
    {er : NBPExchangeRate}
    (h : NBPExchangeRate.fromRate reg code r = .ok er) :
    er.date = r.effectiveDate ∧ r.mid = some er.mid ∧
    er.currency_code = strUpper code := by
  unfold NBPExchangeRate.fromRate at h
  cases hm : r.mid with
  | none => rw [hm] at h; cases h
  | some m =>
    rw [hm] at h
    unfold NBPExchangeRate.init NBPExchangeRate.validateCode at h
    by_cases hc : (lookupCur reg (strUpper code)).isSome
    · rw [if_pos hc] at h
      cases h
      exact ⟨rfl, rfl, rfl⟩
    · rw [if_neg hc] at h
      cases h

/-- The empty dictionary satisfies the invariant. -/
theorem goodRates_nil : GoodRates [] :=
  ⟨List.nodup_nil, fun kv h => absurd h (List.not_mem_nil kv)⟩

/-- Properties of the comprehension-and-sort step (lines 110-116) on a
dictionary satisfying the invariant: the output is ascending by date, has
pairwise-distinct dates, every record stems from a merged entry carrying
its `mid` value, and every merged entry carrying a `mid` value produces a
record. -/
theorem finalize_props {reg : Registry} {code : String}
    {m : List (String × RateDict)} {l : List NBPExchangeRate}
    (hg : GoodRates m) (h : finalize reg code m = .ok l) :
    l.Pairwise dateLe ∧ (l.map (fun r => r.date)).Nodup ∧
    (∀ r ∈ l, ∃ v, (r.date, v) ∈ m ∧ v.mid = some r.mid) ∧
    (∀ kv ∈ m, kv.2.mid.isSome = true → ∃ r ∈ l, r.date = kv.1) := by
  unfold finalize at h
  set xs := (m.map (fun kv => kv.2)).filter (fun r => r.mid.isSome) with hxs
  cases hmE : mapExcept (NBPExchangeRate.fromRate reg code) xs with
  | error e => rw [hmE] at h; cases h
  | ok l0 =>
    rw [hmE] at h
    cases h
    have hperm := sortByDate_perm l0
    refine ⟨sortByDate_sorted l0, ?_, ?_, ?_⟩
    · have hmap : l0.map (fun r => r.date) = xs.map (fun v => v.effectiveDate) :=
        mapExcept_map (fun x y hxy => (fromRate_ok hxy).1) hmE
      have hsub : xs.Sublist (m.map (fun kv => kv.2)) := List.filter_sublist _
      have hsub2 : (xs.map (fun v => v.effectiveDate)).Sublist
          ((m.map (fun kv => kv.2)).map (fun v => v.effectiveDate)) :=
        hsub.map _
      have hmm : (m.map (fun kv => kv.2)).map (fun v => v.effectiveDate) =
          m.map Prod.fst := by
        rw [List.map_map]
        exact List.map_congr_left (fun kv hkv => hg.2 kv hkv)
      have hnod : (xs.map (fun v => v.effectiveDate)).Nodup :=
        (hmm ▸ hsub2).nodup hg.1
      have hnod0 : (l0.map (fun r => r.date)).Nodup := hmap ▸ hnod
      exact ((hperm.map (fun r => r.date)).symm).nodup hnod0
    · intro r hr
      have hr0 : r ∈ l0 := hperm.mem_iff.mp hr
      rcases mapExcept_mem hmE r hr0 with ⟨x, hx, hfx⟩
      rcases fromRate_ok hfx with ⟨hdate, hmid, _⟩
      rcases List.mem_filter.mp hx with ⟨hx1, _⟩
      rcases List.mem_map.mp hx1 with ⟨kv, hkv, hkvx⟩
      refine ⟨x, ?_, hmid⟩
      have hdk : r.date = kv.1 := by
        rw [hdate, ← hkvx]
        exact hg.2 kv hkv
      have : (r.date, x) = kv := by
        rw [hdk, ← hkvx]
      rw [this]
      exact hkv
    · intro kv hkv hmid
      have hx : kv.2 ∈ xs :=
        List.mem_filter.mpr ⟨List.mem_map_of_mem _ hkv, hmid⟩
      rcases mapExcept_mem_rev hmE kv.2 hx with ⟨r, hr, hfr⟩
      rcases fromRate_ok hfr with ⟨hdate, _, _⟩
      refine ⟨r, hperm.mem_iff.mpr hr, ?_⟩
      rw [hdate]
      exact hg.2 kv hkv

/-- Inversion of a successful uncached fetch producing a record list: the
fetch loop succeeded on every table (one transport call each) and the
finalization step built `l` from the merged dictionary. -/
theorem uncached_ok_some {reg : Registry} {net : Net} {c : NBPClient}
    {tail : String} {av : Bool} {l : List NBPExchangeRate} {n : Nat}
    (h : get_response_data_uncached reg net c tail av = (.ok (some l), n)) :
    ∃ m, (fetchTables net c.suppress_api_errors c.currency_code tail
        (tablesFor reg c.currency_code av) []).1 = .ok (some m) ∧
      GoodRates m ∧ finalize reg c.currency_code m = .ok l ∧
      n = (tablesFor reg c.currency_code av).length := by
  unfold get_response_data_uncached at h
  revert h
  rcases hfr : fetchTables net c.suppress_api_errors c.currency_code tail
    (tablesFor reg c.currency_code av) [] with ⟨r1, r2⟩
  rcases r1 with e | o
  · intro h
    simp at h
  · rcases o with _ | m
    · intro h
      simp at h
    · rcases hfin : finalize reg c.currency_code m with e | l'
      · intro h0
        have h : (match finalize reg c.currency_code m with
            | Except.ok l => Except.ok (some l)
            | Except.error e => Except.error e, r2) =
            ((Except.ok (some l) : Except NBPError CacheVal), n) := h0
        rw [hfin] at h
        simp at h
      · intro h0
        have h : (match finalize reg c.currency_code m with
            | Except.ok l => Except.ok (some l)
            | Except.error e => Except.error e, r2) =
            ((Except.ok (some l) : Except NBPError CacheVal), n) := h0
        rw [hfin] at h
        have h1 : l' = l := by simpa using congrArg Prod.fst h
        have h2 : r2 = n := by simpa using congrArg Prod.snd h
        subst h1
        subst h2
        have hf1 : (fetchTables net c.suppress_api_errors c.currency_code tail
            (tablesFor reg c.currency_code av) []).1 = .ok (some m) :=
          congrArg Prod.fst hfr
        have hf2 : (fetchTables net c.suppress_api_errors c.currency_code tail
            (tablesFor reg c.currency_code av) []).2 = r2 :=
          congrArg Prod.snd hfr
        refine ⟨m, rfl, fetchTables_ok_good _ _ m goodRates_nil hf1, hfin, ?_⟩
        rw [← hf2]
        exact fetchTables_ok_count _ _ m hf1

/-- A suppressed transport failure makes the uncached fetch return `None`
after one transport call per table reached. -/
theorem uncached_fail {reg : Registry} {net : Net} {c : NBPClient}
    {tail : String} {av : Bool} {ts1 ts2 : List String} {t e : String}
    (htab : tablesFor reg c.currency_code av = ts1 ++ t :: ts2)
    (hok : ∀ u ∈ ts1, ∃ d, net (mkUri u c.currency_code tail) = .ok d)
    (hfail : net (mkUri t c.currency_code tail) = .error e) :
    get_response_data_uncached reg net c tail av =
      (if c.suppress_api_errors then .ok none else .error (.apiError e),
       ts1.length + 1) := by
  unfold get_response_data_uncached
  rw [htab, fetchTables_fail hfail ts1 [] hok]
  cases hs : c.suppress_api_errors <;> simp

/-- Looking up a key just stored in a non-degenerate cache hits and returns
the stored value. -/
theorem lru_get_put (c : LRUCache) (k : CacheKey) (v : CacheVal)
    (hm : 0 < c.maxsize) :
    ∃ c2, (c.put k v).get k = some (v, c2) := by
  obtain ⟨n, hn⟩ : ∃ n, c.maxsize = n + 1 := ⟨c.maxsize - 1, by omega⟩
  simp only [LRUCache.put, LRUCache.get, hn, List.take_succ_cons]
  rw [List.find?_cons_of_pos _ (by simp)]
  exact ⟨_, rfl⟩

/-- A cache miss runs the fetch body and stores its returned value. -/
theorem grd_miss_ok {reg : Registry} {net : Net} {c : NBPClient}
    {tail : String} {av : Bool} {v : CacheVal} {n : Nat}
    (hc : c.cache.get (tail, av) = none)
    (hu : get_response_data_uncached reg net c tail av = (.ok v, n)) :
    c.get_response_data reg net tail av =
      (.ok v, { c with cache := c.cache.put (tail, av) v }, n) := by
  unfold NBPClient.get_response_data
  rw [hc, hu]

/-- A cache hit returns the stored value with no transport call. -/
theorem grd_hit {reg : Registry} {net : Net} {c : NBPClient}
    {tail : String} {av : Bool} {v : CacheVal} {cache2 : LRUCache}
    (hc : c.cache.get (tail, av) = some (v, cache2)) :
    c.get_response_data reg net tail av = (.ok v, { c with cache := cache2 }, 0) := by
  unfold NBPClient.get_response_data
  rw [hc]

/-- Any client holding a cache into which `(tail, av) ↦ v` was just stored
answers the same query from the cache: the stored value, no transport
call, under any transport oracle. -/
theorem grd_hit_after_put {reg : Registry} {net2 : Net} {c1 : NBPClient}
    {tail : String} {av : Bool} {v : CacheVal} {cache : LRUCache}
    (hcache : c1.cache = cache.put (tail, av) v) (hm : 0 < cache.maxsize) :
    ∃ c2, c1.get_response_data reg net2 tail av = (.ok v, c2, 0) := by
  obtain ⟨cc, hcc⟩ := lru_get_put cache (tail, av) v hm
  refine ⟨{ c1 with cache := cc }, grd_hit ?_⟩
  rw [hcache]
  exact hcc

/-- On a cache miss the query result and the number of transport calls are
those of the fetch body. -/
theorem grd_miss_fst {reg : Registry} {net : Net} {c : NBPClient}
    {tail : String} {av : Bool}
    (hc : c.cache.get (tail, av) = none) :
    (c.get_response_data reg net tail av).1 =
      (get_response_data_uncached reg net c tail av).1 := by
  unfold NBPClient.get_response_data
  rw [hc]
  rcases hu : get_response_data_uncached reg net c tail av with ⟨res, n⟩
  rcases res with e | v <;> simp

/-- C1: the `currency_name` accessor of a validly constructed rate object
returns the whole registry record for its currency code — including the
`tables` field — not the display-name string the specification and the
accessor's own docstring describe. -/
theorem claim1_currency_name_returns_record :
    ∃ r, NBPExchangeRate.init nbpCurrencies "USD" "2023-01-02" "1/A/NBP/2023"
        4 none none = .ok r ∧
      NBPExchangeRate.currency_name nbpCurrencies r =
        some { name := "United States dollar", tables := ["A", "C"] } :=
  ⟨usdRate1, rfl, rfl⟩

/-- C2: when the transport fails on some table of a query (after any number
of successfully fetched tables), the query raises `APIError` carrying the
transport description when `suppress_api_errors` is unset, and returns
`None` — surfacing nothing from the already-fetched tables — when it is
set. -/
theorem claim2_transport_failure {reg : Registry} {net : Net} {c : NBPClient}
    {uri_tail : String} {av : Bool} {ts1 ts2 : List String} {t e : String}
    (hc : c.cache.get (uri_tail, av) = none)
    (htab : tablesFor reg c.currency_code av = ts1 ++ t :: ts2)
    (hok : ∀ u ∈ ts1, ∃ d, net (mkUri u c.currency_code uri_tail) = .ok d)
    (hfail : net (mkUri t c.currency_code uri_tail) = .error e) :
    (c.suppress_api_errors = false →
      (c.get_response_data reg net uri_tail av).1 = .error (.apiError e)) ∧
    (c.suppress_api_errors = true →
      (c.get_response_data reg net uri_tail av).1 = .ok none) := by
  have hu := uncached_fail htab hok hfail
  constructor
  · intro hs
    rw [hs] at hu
    simp only [Bool.false_eq_true, if_false] at hu
    rw [grd_miss_fst hc, hu]
  · intro hs
    rw [hs] at hu
    simp only [if_true] at hu
    rw [grd_miss_fst hc, hu]

/-- C3: a date_range query that returns a record list yields it sorted
ascending by date with pairwise-distinct dates; a merged dictionary over
the fetched tables exists from which exactly the dates carrying a `mid`
value were turned into records (dates without `mid` are dropped). -/
theorem claim3_date_range_sorted {reg : Registry} {net : Net} {c : NBPClient}
    {s e : String} {av : Bool} {l : List NBPExchangeRate}
    (hc : c.cache.get (s ++ "/" ++ e, av) = none)
    (h : (NBPClient.date_range reg net c s e av).1 = .ok (some l)) :
    l.Pairwise dateLe ∧ (l.map (fun r => r.date)).Nodup ∧
    ∃ m, (fetchTables net c.suppress_api_errors c.currency_code
        (s ++ "/" ++ e) (tablesFor reg c.currency_code av) []).1 =
          .ok (some m) ∧
      (∀ r ∈ l, ∃ v, (r.date, v) ∈ m ∧ v.mid = some r.mid) ∧
      (∀ kv ∈ m, kv.2.mid.isSome = true → ∃ r ∈ l, r.date = kv.1) := by
  unfold NBPClient.date_range at h
  cases hv1 : validate_date s with
  | error e1 => rw [hv1] at h; cases h
  | ok u1 =>
    rw [hv1] at h
    cases hv2 : validate_date e with
    | error e2 => rw [hv2] at h; cases h
    | ok u2 =>
      rw [hv2] at h
      rw [grd_miss_fst hc] at h
      have hu : get_response_data_uncached reg net c (s ++ "/" ++ e) av =
          (.ok (some l),
           (get_response_data_uncached reg net c (s ++ "/" ++ e) av).2) := by
        rw [← h]
      obtain ⟨m, hm1, hgood, hfin, _⟩ := uncached_ok_some hu
      obtain ⟨hsorted, hnodup, hprov, hcompl⟩ := finalize_props hgood hfin
      exact ⟨hsorted, hnodup, m, hm1, hprov, hcompl⟩

/-- C4: assigning a currency code — at client construction, at client
reassignment, and at rate-object construction — raises
`UnknownCurrencyCode` exactly when the upper-cased code is absent from the
registry (for any configuration flags, in particular both values of
`suppress_api_errors`), and otherwise stores the upper-cased code. -/
theorem claim4_code_validation (reg : Registry) (code date source_id : String)
    (mid : Rat) (bid ask : Option Rat) (af se : Bool) (cs : Nat)
    (c : NBPClient) :
    ((lookupCur reg (strUpper code)).isSome = false →
      NBPClient.init reg code af se cs =
        .error (.unknownCurrencyCode (strUpper code)) ∧
      NBPClient.setCurrencyCode reg c code =
        .error (.unknownCurrencyCode (strUpper code)) ∧
      NBPExchangeRate.init reg code date source_id mid bid ask =
        .error (.unknownCurrencyCode (strUpper code))) ∧
    ((lookupCur reg (strUpper code)).isSome = true →
      (∃ cl, NBPClient.init reg code af se cs = .ok cl ∧
        cl.currency_code = strUpper code) ∧
      (∃ cl, NBPClient.setCurrencyCode reg c code = .ok cl ∧
        cl.currency_code = strUpper code) ∧
      (∃ r, NBPExchangeRate.init reg code date source_id mid bid ask = .ok r ∧
        r.currency_code = strUpper code)) := by
  unfold NBPClient.init NBPClient.setCurrencyCode NBPExchangeRate.init
  unfold NBPClient.validateCode NBPExchangeRate.validateCode
  constructor
  · intro h
    have h' : ¬ ((lookupCur reg (strUpper code)).isSome = true) := by
      rw [h]; simp
    simp only [if_neg h']
    exact ⟨trivial, trivial, trivial⟩
  · intro h
    simp only [if_pos h]
    exact ⟨⟨_, rfl, rfl⟩, ⟨_, rfl, rfl⟩, ⟨_, rfl, rfl⟩⟩

/-- C5: a malformed date makes `date` (the on-date query) and `date_range`
raise `InvalidDate` with zero transport calls and an unchanged client; for
`date_range` both end points are validated. -/
theorem claim5_invalid_date (reg : Registry) (net : Net) (c : NBPClient)
    (d1 d2 : String) (av : Bool) :
    (isValidDate d1 = false →
      NBPClient.date reg net c d1 av = (.error (.invalidDate d1), c, 0)) ∧
    (isValidDate d1 = false →
      NBPClient.date_range reg net c d1 d2 av =
        (.error (.invalidDate d1), c, 0)) ∧
    (isValidDate d1 = true → isValidDate d2 = false →
      NBPClient.date_range reg net c d1 d2 av =
        (.error (.invalidDate d2), c, 0)) := by
  unfold NBPClient.date NBPClient.date_range validate_date
  refine ⟨?_, ?_, ?_⟩
  · intro h
    simp [h]
  · intro h
    simp [h]
  · intro h1 h2
    simp [h1, h2]

/-- C6: converting an amount A yields exactly the mid-only mapping when
bid/ask are absent, and exactly the bid/ask/mid mapping when both are
present. -/
theorem claim6_conversion (r : NBPExchangeRate) (A : Rat) :
    (r.bidask = none → r.call A = [("mid", A * r.mid)]) ∧
    (∀ b a, r.bidask = some (b, a) →
      r.call A = [("bid", A * b), ("ask", A * a), ("mid", A * r.mid)]) := by
  constructor
  · intro h
    unfold NBPExchangeRate.call
    rw [h]
    simp [mul_comm]
  · intro b a h
    unfold NBPExchangeRate.call
    rw [h]
    simp [mul_comm]

/-- C7: both infix multiplication forms delegate to the conversion
operation, so `rate * A`, `A * rate` and `rate(A)` agree for every rate and
amount. -/
theorem claim7_mul_equiv (r : NBPExchangeRate) (A : Rat) :
    r.mul A = r.call A ∧ r.rmul A = r.call A :=
  ⟨rfl, rfl⟩

/-- C8: a first uncached successful query makes exactly one transport call
per distinct relevant table and caches its result; repeating the query with
identical arguments on the resulting client returns the same sequence with
zero transport calls, under any transport oracle (no invalidation). -/
theorem claim8_cache_second_call {reg : Registry} {net : Net} {c : NBPClient}
    {uri_tail : String} {av : Bool} {l : List NBPExchangeRate} {n : Nat}
    (hm : 0 < c.cache.maxsize)
    (hc : c.cache.get (uri_tail, av) = none)
    (hu : get_response_data_uncached reg net c uri_tail av = (.ok (some l), n)) :
    n = (tablesFor reg c.currency_code av).length ∧
    ∃ c1, c.get_response_data reg net uri_tail av = (.ok (some l), c1, n) ∧
      ∀ net2 : Net, ∃ c2,
        c1.get_response_data reg net2 uri_tail av = (.ok (some l), c2, 0) := by
  constructor
  · obtain ⟨m, _, _, _, hn⟩ := uncached_ok_some hu
    exact hn
  · exact ⟨{ c with cache := c.cache.put (uri_tail, av) (some l) },
      grd_miss_ok hc hu, fun net2 => grd_hit_after_put rfl hm⟩

/-- C9: the cache key holds only the query path tail and the
`all_values` flag, so after reassigning the client's currency code to
another valid code, a query identical to one cached before the
reassignment returns the previously cached sequence with zero transport
calls. -/
theorem claim9_cache_ignores_currency {reg : Registry} {net : Net}
    {c : NBPClient} {uri_tail : String} {av : Bool}
    {l : List NBPExchangeRate} {n : Nat} {newCode : String}
    (hm : 0 < c.cache.maxsize)
    (hc : c.cache.get (uri_tail, av) = none)
    (hu : get_response_data_uncached reg net c uri_tail av = (.ok (some l), n))
    (hY : (lookupCur reg (strUpper newCode)).isSome = true) :
    ∃ c1, c.get_response_data reg net uri_tail av = (.ok (some l), c1, n) ∧
      ∃ c2, NBPClient.setCurrencyCode reg c1 newCode = .ok c2 ∧
        c2.currency_code = strUpper newCode ∧
        ∀ net2 : Net, ∃ c3,
          c2.get_response_data reg net2 uri_tail av = (.ok (some l), c3, 0) := by
  refine ⟨{ c with cache := c.cache.put (uri_tail, av) (some l) },
    grd_miss_ok hc hu, ?_⟩
  refine ⟨{ c with cache := c.cache.put (uri_tail, av) (some l), currency_code := strUpper newCode }, ?_, rfl, ?_⟩
  · unfold NBPClient.setCurrencyCode NBPClient.validateCode
    simp only [if_pos hY]
  · intro net2
    exact grd_hit_after_put rfl hm

/-- C10: with `suppress_api_errors` set, a transport failure makes the
query return `None`, and that `None` is cached: any later identical query
on the resulting client returns `None` with zero transport calls under any
transport oracle, in particular a recovered one. -/
theorem claim10_suppressed_none_cached {reg : Registry} {net : Net}
    {c : NBPClient} {uri_tail : String} {av : Bool} {ts1 ts2 : List String}
    {t e : String}
    (hm : 0 < c.cache.maxsize)
    (hc : c.cache.get (uri_tail, av) = none)
    (hsup : c.suppress_api_errors = true)
    (htab : tablesFor reg c.currency_code av = ts1 ++ t :: ts2)
    (hok : ∀ u ∈ ts1, ∃ d, net (mkUri u c.currency_code uri_tail) = .ok d)
    (hfail : net (mkUri t c.currency_code uri_tail) = .error e) :
    ∃ c1, c.get_response_data reg net uri_tail av =
        (.ok none, c1, ts1.length + 1) ∧
      ∀ net2 : Net, ∃ c2,
        c1.get_response_data reg net2 uri_tail av = (.ok none, c2, 0) := by
  have hu := uncached_fail htab hok hfail
  rw [hsup] at hu
  simp only [if_true] at hu
  exact ⟨{ c with cache := c.cache.put (uri_tail, av) none },
    grd_miss_ok hc hu, fun net2 => grd_hit_after_put rfl hm⟩

/-- Concrete run of C2: USD with spread data requested; table A fetches
fine, table C fails; the strict client raises and the suppressing client
gets `None` despite table A's data. -/
theorem claim2_witness :
    (usdClient.get_response_data nbpCurrencies netACfail tailW true).1 =
      .error (.apiError "404 Client Error") ∧
    (usdClientSup.get_response_data nbpCurrencies netACfail tailW true).1 =
      .ok none := by
  have hok : ∀ u ∈ ["A"], ∃ d,
      netACfail (mkUri u usdClient.currency_code tailW) = .ok d := by
    intro u hu
    have hu' : u = "A" := List.mem_singleton.mp hu
    subst hu'
    exact ⟨[rdA1], rfl⟩
  have h1 := @claim2_transport_failure nbpCurrencies netACfail usdClient
    tailW true ["A"] [] "C" "404 Client Error" rfl rfl hok rfl
  have h2 := @claim2_transport_failure nbpCurrencies netACfail usdClientSup
    tailW true ["A"] [] "C" "404 Client Error" rfl rfl hok rfl
  exact ⟨h1.1 rfl, h2.2 rfl⟩

/-- Concrete run of C3: the two-record USD range comes back date-ascending
with distinct dates, built from the merged table-A dictionary. -/
theorem claim3_witness :
    [usdRate1, usdRate2].Pairwise dateLe ∧
    ([usdRate1, usdRate2].map (fun r => r.date)).Nodup ∧
    ∃ m, (fetchTables netA usdClient.suppress_api_errors
        usdClient.currency_code ("2023-01-02" ++ "/" ++ "2023-01-05")
        (tablesFor nbpCurrencies usdClient.currency_code false) []).1 =
          .ok (some m) ∧
      (∀ r ∈ [usdRate1, usdRate2], ∃ v, (r.date, v) ∈ m ∧ v.mid = some r.mid) ∧
      (∀ kv ∈ m, kv.2.mid.isSome = true →
        ∃ r ∈ [usdRate1, usdRate2], r.date = kv.1) :=
  @claim3_date_range_sorted nbpCurrencies netA usdClient "2023-01-02"
    "2023-01-05" false [usdRate1, usdRate2] rfl rfl

/-- Concrete run of C4: a lower-case valid code is stored upper-cased; an
unknown code is rejected at construction. -/
theorem claim4_witness :
    (∃ cl, NBPClient.init nbpCurrencies "usd" false false 128 = .ok cl ∧
      cl.currency_code = strUpper "usd") ∧
    NBPClient.init nbpCurrencies "xxx" false true 128 =
      .error (.unknownCurrencyCode (strUpper "xxx")) := by
  have hpos := (claim4_code_validation nbpCurrencies "usd" "2023-01-02"
    "1/A/NBP/2023" 4 none none false false 128 usdClient).2 rfl
  have hneg := (claim4_code_validation nbpCurrencies "xxx" "2023-01-02"
    "1/A/NBP/2023" 4 none none false true 128 usdClient).1 rfl
  exact ⟨hpos.1, hneg.1⟩

/-- Concrete run of C5: malformed dates (nonexistent calendar day, bad
month, wrong shape) are rejected by both date-taking queries with zero
transport calls. -/
theorem claim5_witness :
    NBPClient.date nbpCurrencies netDown usdClient "2023-02-30" false =
      (.error (.invalidDate "2023-02-30"), usdClient, 0) ∧
    NBPClient.date_range nbpCurrencies netDown usdClient "2023-13-01"
      "2023-01-05" false = (.error (.invalidDate "2023-13-01"), usdClient, 0) ∧
    NBPClient.date_range nbpCurrencies netDown usdClient "2023-01-02"
      "bogus" false = (.error (.invalidDate "bogus"), usdClient, 0) :=
  ⟨(claim5_invalid_date nbpCurrencies netDown usdClient "2023-02-30"
      "2023-01-05" false).1 rfl,
   (claim5_invalid_date nbpCurrencies netDown usdClient "2023-13-01"
      "2023-01-05" false).2.1 rfl,
   (claim5_invalid_date nbpCurrencies netDown usdClient "2023-01-02"
      "bogus" false).2.2 rfl rfl⟩

/-- Concrete run of C6: a mid-only record converts 10 to the mid-only
mapping; a record with spread data converts 10 to all three keys. -/
theorem claim6_witness :
    usdRate1.call 10 = [("mid", (40 : Rat))] ∧
    usdRateBidAsk.call 10 =
      [("bid", (30 : Rat)), ("ask", 60), ("mid", 40)] := by
  constructor
  · have h := (claim6_conversion usdRate1 10).1 rfl
    rw [h]
    norm_num [usdRate1]
  · have h := (claim6_conversion usdRateBidAsk 10).2 3 6 rfl
    rw [h]
    norm_num [usdRateBidAsk]

/-- Concrete run of C8: the first USD range query costs one transport call
(one relevant table) and the repeat is served from the cache. -/
theorem claim8_witness :
    1 = (tablesFor nbpCurrencies usdClient.currency_code false).length ∧
    ∃ c1, usdClient.get_response_data nbpCurrencies netA tailW false =
      (.ok (some [usdRate1, usdRate2]), c1, 1) ∧
      ∀ net2 : Net, ∃ c2,
        c1.get_response_data nbpCurrencies net2 tailW false =
          (.ok (some [usdRate1, usdRate2]), c2, 0) :=
  @claim8_cache_second_call nbpCurrencies netA usdClient tailW false
    [usdRate1, usdRate2] 1 (by decide) rfl rfl

/-- Concrete run of C9: after the USD query is cached, switching the client
to EUR and repeating the query returns the cached USD sequence with no
transport call. -/
theorem claim9_witness :
    ∃ c1, usdClient.get_response_data nbpCurrencies netA tailW false =
      (.ok (some [usdRate1, usdRate2]), c1, 1) ∧
      ∃ c2, NBPClient.setCurrencyCode nbpCurrencies c1 "eur" = .ok c2 ∧
        c2.currency_code = strUpper "eur" ∧
        ∀ net2 : Net, ∃ c3,
          c2.get_response_data nbpCurrencies net2 tailW false =
            (.ok (some [usdRate1, usdRate2]), c3, 0) :=
  @claim9_cache_ignores_currency nbpCurrencies netA usdClient tailW false
    [usdRate1, usdRate2] 1 "eur" (by decide) rfl rfl rfl

/-- Concrete run of C10: with errors suppressed and the transport down, the
USD query returns `None` after one transport call, and the repeat returns
`None` from the cache even under any recovered transport. -/
theorem claim10_witness :
    ∃ c1, usdClientSup.get_response_data nbpCurrencies netDown tailW false =
      (.ok none, c1, 1) ∧
      ∀ net2 : Net, ∃ c2,
        c1.get_response_data nbpCurrencies net2 tailW false =
          (.ok none, c2, 0) :=
  @claim10_suppressed_none_cached nbpCurrencies netDown usdClientSup tailW
    false [] [] "A" "503 Server Error" (by decide) rfl rfl rfl
    (fun u hu => absurd hu (List.not_mem_nil u)) rfl

end NBPy
